import Mathlib

/-!
# Verification of the AEC3 processor (`webrtc_aec3_processor.cpp`)

A shallow embedding of the handle-based C surface

* `webrtc_aec3_create`
* `webrtc_aec3_destroy`
* `webrtc_aec3_process_stream`
* `webrtc_aec3_process_reference`

Pointers are addresses (`0` is `nullptr`) into an explicit memory of cells; a
cell holds either a processor object or an array of samples.  Every access
returns an `Option`: `none` stands for undefined behaviour (an access outside
an array, a dereference of something that is not a live object).  `int` is a
32-bit two's-complement integer: products are reduced with `wrapInt`.
Sample arithmetic is a parameter (`FloatOps`), with `binary32` the
round-to-nearest-even single-precision instance over the rationals.
-/

namespace AEC3

/-! ## Machine integers -/

/-- Largest value of a C `int` (32 bits). -/
def INT_MAX : Int := 2147483647

/-- Result of an `int` operation whose exact value is `x`: reduction modulo
`2^32` into the range `[-2^31, 2^31)`. -/
def wrapInt (x : Int) : Int := (x + 2147483648) % 4294967296 - 2147483648

/-- The application binary interfaces the library is built for: 32-bit and
64-bit `size_t`. -/
inductive Abi where
  | ilp32
  | lp64
  deriving DecidableEq, Repr

/-- Width of `size_t` in bits. -/
def Abi.size_bits : Abi → Nat
  | .ilp32 => 32
  | .lp64 => 64

/-- Conversion of an `int` to `size_t` (reduction modulo `2^size_bits`). -/
def toSizeT (abi : Abi) (x : Int) : Nat := (x % (2 : Int) ^ abi.size_bits).toNat

/-- The bound `std::vector<float>::max_size()`: the number of 4-byte elements
an allocation may hold. -/
def max_size (abi : Abi) : Nat := 2 ^ (abi.size_bits - 2) - 1

/-! ## Sample arithmetic -/

/-- The single-precision operations used by the processing loop. -/
structure FloatOps (α : Type) where
  /-- The product `a * b` of two `float`s. -/
  mul : α → α → α
  /-- The difference `a - b` of two `float`s. -/
  sub : α → α → α
  /-- The literal `0.1f`. -/
  lit_0_1 : α

/-- Round half to even of a rational to an integer. -/
def roundHalfEven (q : ℚ) : Int :=
  let f := ⌊q⌋
  let r := q - f
  if r < 1 / 2 then f
  else if 1 / 2 < r then f + 1
  else if f % 2 = 0 then f else f + 1

/-- Base-2 logarithm of a natural number, rounded down, by repeated halving
(at most `fuel` times). -/
def log2Aux : Nat → Nat → Nat
  | 0, _ => 0
  | fuel + 1, n => if n < 2 then 0 else log2Aux fuel (n / 2) + 1

/-- Base-2 logarithm of a natural number, rounded down (`0` at `0`). -/
def ilog2 (n : Nat) : Nat := log2Aux n n

/-- Binary exponent `e` of a nonzero rational `q`, that is
`2^e ≤ |q| < 2^(e+1)`, computed from the bit lengths of numerator and
denominator. -/
def binExponent (q : ℚ) : Int :=
  let k : Int := (ilog2 q.num.natAbs : Int) - (ilog2 q.den : Int)
  if (2 : ℚ) ^ k ≤ |q| then k else k - 1

/-- Rounding of a rational to the nearest binary32 value, ties to even:
24 bits of precision, gradual underflow below `2^-126`.  Values beyond the
largest finite binary32 number are outside this function's domain. -/
def roundF32 (q : ℚ) : ℚ :=
  if q = 0 then 0
  else
    let e := max (binExponent q) (-126)
    let ulp : ℚ := (2 : ℚ) ^ (e - 23)
    (roundHalfEven (q / ulp) : ℚ) * ulp

/-- Single-precision arithmetic on finite values, each operation correctly
rounded. -/
def binary32 : FloatOps ℚ where
  mul a b := roundF32 (a * b)
  sub a b := roundF32 (a - b)
  lit_0_1 := roundF32 (1 / 10)

/-! ## Memory -/

/-- An address; `0` is the null pointer. -/
abbrev Ptr := Nat

/-- The member `std::vector<float> buffer`: its elements and the capacity
reserved for it. -/
structure FloatVector (α : Type) where
  data : List α
  capacity : Nat
  deriving DecidableEq, Repr

/-- The object `struct WebRTCAEC3Processor`. -/
structure WebRTCAEC3Processor (α : Type) where
  sample_rate : Int
  num_channels : Int
  buffer : FloatVector α
  deriving DecidableEq, Repr

/-- What an allocated address holds. -/
inductive Cell (α : Type) where
  | processor (p : WebRTCAEC3Processor α)
  | floats (xs : List α)
  deriving DecidableEq, Repr

/-- The memory: cell `a - 1` of `cells` is what address `a` holds (`none` for
a freed address); `stores` lists the element stores performed so far, oldest
first, as (address, index). -/
structure Memory (α : Type) where
  cells : List (Option (Cell α))
  stores : List (Ptr × Nat)
  deriving DecidableEq, Repr

/-- The messages written to the log. -/
inductive LogEntry where
  | info_init (rate channels : Int)
  | error_create_args (sample_rate num_channels : Int)
  | error_create_alloc
  | info_created
  | info_destroy
  | error_invalid_args
  | info_reference (frame_size : Int)
  deriving DecidableEq, Repr

/-- The state the functions run in. -/
structure World (α : Type) where
  mem : Memory α
  log : List LogEntry
  deriving DecidableEq, Repr

/-- The cell at an address. -/
def Memory.cell {α : Type} (m : Memory α) (a : Ptr) : Option (Cell α) :=
  if a = 0 then none else (m.cells[a - 1]?).join

/-- Dereference of a `WebRTCAEC3Processor*`. -/
def Memory.proc {α : Type} (m : Memory α) (a : Ptr) : Option (WebRTCAEC3Processor α) :=
  match m.cell a with
  | some (.processor p) => some p
  | _ => none

/-- The array a `float*` points to. -/
def Memory.array {α : Type} (m : Memory α) (a : Ptr) : Option (List α) :=
  match m.cell a with
  | some (.floats xs) => some xs
  | _ => none

/-- The read `a[i]`. -/
def Memory.load {α : Type} (m : Memory α) (a : Ptr) (i : Nat) : Option α :=
  match m.array a with
  | some xs => xs[i]?
  | none => none

/-- The write `a[i] = v`. -/
def Memory.store {α : Type} (m : Memory α) (a : Ptr) (i : Nat) (v : α) :
    Option (Memory α) :=
  match m.array a with
  | some xs =>
    if i < xs.length then
      some { cells := m.cells.set (a - 1) (some (.floats (xs.set i v))),
             stores := m.stores ++ [(a, i)] }
    else none
  | none => none

/-! ## Allocation -/

/-- The exceptions `std::vector::reserve` throws. -/
inductive Exn where
  | length_error
  | bad_alloc
  deriving DecidableEq, Repr

/-- The environment of a call of `webrtc_aec3_create`: the target and what
the allocator answers. -/
structure Env where
  abi : Abi
  /-- Whether `operator new(sizeof(WebRTCAEC3Processor), std::nothrow)`
  returns storage. -/
  new_ok : Bool
  /-- Whether storage for `n` samples is available. -/
  alloc_ok : Nat → Bool

/-- The call `v.reserve(n)`: nothing to do when the capacity suffices,
`std::length_error` beyond `max_size()`, `std::bad_alloc` when the allocator
has no storage. -/
def FloatVector.reserve {α : Type} (env : Env) (v : FloatVector α) (n : Nat) :
    Except Exn (FloatVector α) :=
  if n > v.capacity then
    if n > max_size env.abi then .error .length_error
    else if env.alloc_ok n then .ok { v with capacity := n }
    else .error .bad_alloc
  else .ok v

/-- The constructor `WebRTCAEC3Processor(int rate, int channels)`, with the
log after it. -/
def WebRTCAEC3Processor.ctor {α : Type} (env : Env) (log : List LogEntry)
    (rate channels : Int) : Except Exn (WebRTCAEC3Processor α × List LogEntry) :=
  let log1 := log ++ [.info_init rate channels]
  match FloatVector.reserve env ⟨[], 0⟩ (toSizeT env.abi (wrapInt (rate * channels))) with
  | .error e => .error e
  | .ok buffer => .ok (⟨rate, channels, buffer⟩, log1)

/-! ## The C surface -/

/-- The function `webrtc_aec3_create`: the handle returned (`0` for
`nullptr`) and the state after the call, or the exception that leaves it. -/
def webrtc_aec3_create {α : Type} (env : Env) (w : World α)
    (sample_rate num_channels : Int) : Except Exn (Ptr × World α) :=
  if sample_rate ≤ 0 ∨ num_channels ≤ 0 then
    .ok (0, { w with log := w.log ++ [.error_create_args sample_rate num_channels] })
  else if env.new_ok then
    match WebRTCAEC3Processor.ctor env w.log sample_rate num_channels with
    | .error e => .error e
    | .ok (p, log1) =>
      .ok (w.mem.cells.length + 1,
           { mem := { w.mem with cells := w.mem.cells ++ [some (.processor p)] },
             log := log1 ++ [.info_created] })
  else
    .ok (0, { w with log := w.log ++ [.error_create_alloc] })

/-- The function `webrtc_aec3_destroy`; `none` when `delete` is applied to
an address that holds no live processor. -/
def webrtc_aec3_destroy {α : Type} (w : World α) (processor : Ptr) : Option (World α) :=
  if processor ≠ 0 then
    match w.mem.proc processor with
    | some _ =>
      some { mem := { w.mem with cells := w.mem.cells.set (processor - 1) none },
             log := w.log ++ [.info_destroy] }
    | none => none
  else some w

/-- The loop `for (int i = 0; i < frame_size * processor->num_channels; ++i)`
of `webrtc_aec3_process_stream`, entered with counter `i`: the counter and
the memory when the loop is left.  The counter stays below `INT_MAX`, so
`++i` does not overflow. -/
def stream_loop {α : Type} (ops : FloatOps α) (processor near_end far_end output : Ptr)
    (frame_size : Int) (i : Nat) (m : Memory α) : Option (Nat × Memory α) :=
  match m.proc processor with
  | none => none
  | some p =>
    if _h : (i : Int) < wrapInt (frame_size * p.num_channels) then
      match m.load near_end i, m.load far_end i with
      | some a, some b =>
        match m.store output i (ops.sub a (ops.mul b ops.lit_0_1)) with
        | some m1 => stream_loop ops processor near_end far_end output frame_size (i + 1) m1
        | none => none
      | _, _ => none
    else some (i, m)
termination_by 2147483648 - i
decreasing_by
  unfold wrapInt at _h
  omega

/-- The function `webrtc_aec3_process_stream`: the status returned and the
state after the call. -/
def webrtc_aec3_process_stream {α : Type} (ops : FloatOps α) (w : World α)
    (processor near_end far_end output : Ptr) (frame_size : Int) :
    Option (Int × World α) :=
  if processor = 0 ∨ near_end = 0 ∨ far_end = 0 ∨ output = 0 ∨ frame_size ≤ 0 then
    some (-1, { w with log := w.log ++ [.error_invalid_args] })
  else
    match stream_loop ops processor near_end far_end output frame_size 0 w.mem with
    | some (_, m) => some (0, { w with mem := m })
    | none => none

/-- The function `webrtc_aec3_process_reference`: the status returned and
the state after the call. -/
def webrtc_aec3_process_reference {α : Type} (w : World α)
    (processor reference : Ptr) (frame_size : Int) : Int × World α :=
  if processor = 0 ∨ reference = 0 ∨ frame_size ≤ 0 then
    (-1, { w with log := w.log ++ [.error_invalid_args] })
  else
    (0, { w with log := w.log ++ [.info_reference frame_size] })

/-- Number of iterations the loop of `webrtc_aec3_process_stream` performs:
the value of the `int` expression `frame_size * processor->num_channels`
when positive, `0` otherwise. -/
def loopBound (frame_size num_channels : Int) : Nat :=
  (wrapInt (frame_size * num_channels)).toNat

/-- A call of one of the two processing functions. -/
inductive Call where
  | stream (processor near_end far_end output : Ptr) (frame_size : Int)
  | reference (processor reference : Ptr) (frame_size : Int)
  deriving DecidableEq, Repr

/-- The status and the state after one call; `none` when the call has
undefined behaviour. -/
def Call.exec {α : Type} (ops : FloatOps α) (w : World α) : Call → Option (Int × World α)
  | .stream processor near_end far_end output frame_size =>
    webrtc_aec3_process_stream ops w processor near_end far_end output frame_size
  | .reference processor ref frame_size =>
    some (webrtc_aec3_process_reference w processor ref frame_size)

/-- The state after a sequence of calls, made in order. -/
def run {α : Type} (ops : FloatOps α) : World α → List Call → Option (World α)
  | w, [] => some w
  | w, c :: cs =>
    match c.exec ops w with
    | some (_, w1) => run ops w1 cs
    | none => none

/-- The state after a sequence of `webrtc_aec3_process_reference` calls on one
handle, each with its own reference buffer and frame size. -/
def run_references {α : Type} (w : World α) (processor : Ptr) : List (Ptr × Int) → World α
  | [] => w
  | (reference, frame_size) :: rest =>
    run_references (webrtc_aec3_process_reference w processor reference frame_size).2
      processor rest

/-- The condition under which `webrtc_aec3_process_stream` rejects its
arguments. -/
def streamArgsInvalid (processor near_end far_end output : Ptr) (frame_size : Int) : Prop :=
  processor = 0 ∨ near_end = 0 ∨ far_end = 0 ∨ output = 0 ∨ frame_size ≤ 0

instance (processor near_end far_end output : Ptr) (frame_size : Int) :
    Decidable (streamArgsInvalid processor near_end far_end output frame_size) := by
  unfold streamArgsInvalid
  infer_instance

/-- A state with three arrays of two samples at addresses `1`, `2` and `3`
and no processor. -/
def arraysWorld : World ℚ :=
  { mem :=
      { cells := [some (.floats [1, 1]), some (.floats [1 / 2, 1 / 2]), some (.floats [0, 0])],
        stores := [] },
    log := [] }

/-- The state `arraysWorld` after `webrtc_aec3_create(16000, 1)`: the live
mono processor is at address `4`. -/
def monoWorld : World ℚ :=
  { mem :=
      { cells := [some (.floats [1, 1]), some (.floats [1 / 2, 1 / 2]), some (.floats [0, 0]),
                  some (.processor ⟨16000, 1, ⟨[], 16000⟩⟩)],
        stores := [] },
    log := [.info_init 16000 1, .info_created] }

/-- A state with three arrays of one sample at addresses `1`, `2` and `3` and
a live stereo processor at address `4`. -/
def stereoShortWorld : World ℚ :=
  { mem :=
      { cells := [some (.floats [1]), some (.floats [1 / 2]), some (.floats [0]),
                  some (.processor ⟨48000, 2, ⟨[], 96000⟩⟩)],
        stores := [] },
    log := [] }

/-- A state with three arrays of `2^31` samples at addresses `1` (all `1`),
`2` (all `1/2`) and `3` (all `0`) and a live stereo processor at address
`4`. -/
def stereoHugeWorld : World ℚ :=
  { mem :=
      { cells := [some (.floats (List.replicate 2147483648 1)),
                  some (.floats (List.replicate 2147483648 (1 / 2))),
                  some (.floats (List.replicate 2147483648 0)),
                  some (.processor ⟨48000, 2, ⟨[], 96000⟩⟩)],
        stores := [] },
    log := [] }

/-- An environment in which every allocation succeeds, on a 64-bit target. -/
def plentyEnv : Env := { abi := .lp64, new_ok := true, alloc_ok := fun _ => true }

/-- An environment in which `operator new` finds no storage. -/
def exhaustedEnv : Env := { abi := .lp64, new_ok := false, alloc_ok := fun _ => false }

/-- The state before anything is allocated. -/
def emptyWorld : World ℚ := { mem := { cells := [], stores := [] }, log := [] }

/-- The memory of `monoWorld` after `webrtc_aec3_process_stream` has processed
the two samples: the output array holds twice the binary32 value nearest to
`0.95`. -/
def monoProcessed : Memory ℚ :=
  { cells := [some (.floats [1, 1]), some (.floats [1 / 2, 1 / 2]),
              some (.floats [15938355 / 16777216, 15938355 / 16777216]),
              some (.processor ⟨16000, 1, ⟨[], 16000⟩⟩)],
    stores := [(3, 0), (3, 1)] }

/-! ## Memory lemmas -/

section Lemmas

variable {α : Type}

theorem Memory.store_eq_some {m m1 : Memory α} {a : Nat} {i : Nat} {v : α}
    (h : m.store a i v = some m1) :
    ∃ xs, m.array a = some xs ∧ i < xs.length ∧
      m1 = { cells := m.cells.set (a - 1) (some (.floats (xs.set i v))),
             stores := m.stores ++ [(a, i)] } := by
  unfold Memory.store at h
  split at h
  · rename_i xs hxs
    split at h
    · rename_i hi
      exact ⟨xs, hxs, hi, (Option.some.inj h).symm⟩
    · exact absurd h (by simp)
  · exact absurd h (by simp)

theorem Memory.array_eq_some {m : Memory α} {a : Nat} {xs : List α}
    (h : m.array a = some xs) :
    a ≠ 0 ∧ m.cells[a - 1]? = some (some (.floats xs)) := by
  unfold Memory.array Memory.cell at h
  by_cases ha : a = 0
  · simp [ha] at h
  · refine ⟨ha, ?_⟩
    simp only [ha, if_false] at h
    cases hc : m.cells[a - 1]? with
    | none => simp [hc] at h
    | some c =>
      cases c with
      | none => simp [hc] at h
      | some c =>
        cases c with
        | processor p => simp [hc] at h
        | floats ys =>
          simp [hc] at h
          simp [h]

theorem Memory.cell_set_ne (m : Memory α) (a b : Nat) (c : Option (Cell α)) (s : List (Ptr × Nat))
    (ha : a ≠ 0) (hb : b ≠ a) :
    Memory.cell { cells := m.cells.set (a - 1) c, stores := s } b = m.cell b := by
  unfold Memory.cell
  by_cases hb0 : b = 0
  · simp [hb0]
  · have : a - 1 ≠ b - 1 := by omega
    simp [hb0, List.getElem?_set_ne this]

theorem Memory.cell_set_eq (m : Memory α) (a : Nat) (c : Cell α) (s : List (Ptr × Nat))
    (ha : a ≠ 0) (hlt : a - 1 < m.cells.length) :
    Memory.cell { cells := m.cells.set (a - 1) (some c), stores := s } a = some c := by
  unfold Memory.cell
  simp [ha, List.getElem?_set_self, hlt]

theorem Memory.store_cell_ne {m m1 : Memory α} {a : Nat} {i : Nat} {v : α}
    (h : m.store a i v = some m1) (b : Nat) (hb : b ≠ a) : m1.cell b = m.cell b := by
  obtain ⟨xs, hxs, _, rfl⟩ := Memory.store_eq_some h
  exact Memory.cell_set_ne m a b _ _ (Memory.array_eq_some hxs).1 hb

theorem Memory.store_cell_eq {m m1 : Memory α} {a : Nat} {i : Nat} {v : α}
    (h : m.store a i v = some m1) {xs : List α} (hxs : m.array a = some xs) :
    m1.cell a = some (.floats (xs.set i v)) := by
  obtain ⟨ys, hys, _, rfl⟩ := Memory.store_eq_some h
  rw [hxs] at hys
  cases Option.some.inj hys
  obtain ⟨ha, hc⟩ := Memory.array_eq_some hxs
  have hlt : a - 1 < m.cells.length := by
    rcases List.getElem?_eq_some_iff.mp hc with ⟨hlt, _⟩
    exact hlt
  exact Memory.cell_set_eq m a _ _ ha hlt

theorem Memory.store_array {m m1 : Memory α} {a : Nat} {i : Nat} {v : α}
    (h : m.store a i v = some m1) (b : Nat) {xs : List α} (hxs : m.array b = some xs) :
    m1.array b = some (if b = a then xs.set i v else xs) := by
  by_cases hb : b = a
  · subst hb
    simp only [if_true]
    unfold Memory.array
    rw [Memory.store_cell_eq h hxs]
  · simp only [hb, if_false]
    unfold Memory.array
    rw [Memory.store_cell_ne h b hb]
    exact hxs

theorem Memory.store_proc {m m1 : Memory α} {a : Nat} {i : Nat} {v : α}
    (h : m.store a i v = some m1) (b : Nat) : m1.proc b = m.proc b := by
  by_cases hb : b = a
  · subst hb
    obtain ⟨xs, hxs, _, _⟩ := Memory.store_eq_some h
    have h1 := Memory.store_cell_eq h hxs
    have h0 : m.cell b = some (.floats xs) := by
      unfold Memory.array at hxs
      split at hxs
      · rename_i ys hc
        rw [hc, Option.some.inj hxs]
      · exact absurd hxs (by simp)
    unfold Memory.proc
    rw [h1, h0]
  · unfold Memory.proc
    rw [Memory.store_cell_ne h b hb]

theorem Memory.store_stores {m m1 : Memory α} {a : Nat} {i : Nat} {v : α}
    (h : m.store a i v = some m1) : m1.stores = m.stores ++ [(a, i)] := by
  obtain ⟨xs, _, _, rfl⟩ := Memory.store_eq_some h
  rfl

theorem Memory.store_cells_length {m m1 : Memory α} {a : Nat} {i : Nat} {v : α}
    (h : m.store a i v = some m1) : m1.cells.length = m.cells.length := by
  obtain ⟨xs, _, _, rfl⟩ := Memory.store_eq_some h
  simp

theorem Memory.store_some_of {m : Memory α} {a : Nat} {i : Nat} (v : α) {xs : List α}
    (hxs : m.array a = some xs) (hi : i < xs.length) : ∃ m1, m.store a i v = some m1 := by
  unfold Memory.store
  rw [hxs]
  simp [hi]

theorem Memory.load_of_array {m : Memory α} {a : Nat} {xs : List α}
    (hxs : m.array a = some xs) (i : Nat) : m.load a i = xs[i]? := by
  unfold Memory.load
  rw [hxs]

theorem set_getElem?_other (xs : List α) (i j : Nat) (v : α) (h : j ≠ i) :
    (xs.set i v)[j]? = xs[j]? := by
  rw [List.getElem?_set_ne (Ne.symm h)]

theorem ite_set_getElem?_other (c : Prop) [Decidable c] (xs : List α) (i j : Nat) (v : α)
    (h : j ≠ i) : (if c then xs.set i v else xs)[j]? = xs[j]? := by
  split
  · exact set_getElem?_other xs i j v h
  · rfl

theorem ite_set_length (c : Prop) [Decidable c] (xs : List α) (i : Nat) (v : α) :
    (if c then xs.set i v else xs).length = xs.length := by
  split <;> simp

theorem stream_loop_spec (ops : FloatOps α) (processor near far out : Nat) (frame_size : Int)
    (p : WebRTCAEC3Processor α) :
    ∀ (k i : Nat) (m : Memory α) (xs ys zs : List α),
      i + k = loopBound frame_size p.num_channels →
      m.proc processor = some p →
      m.array near = some xs → m.array far = some ys → m.array out = some zs →
      loopBound frame_size p.num_channels ≤ xs.length →
      loopBound frame_size p.num_channels ≤ ys.length →
      loopBound frame_size p.num_channels ≤ zs.length →
      ∃ m' zs',
        stream_loop ops processor near far out frame_size i m
          = some (loopBound frame_size p.num_channels, m') ∧
        m'.stores = m.stores ++ (List.range' i k).map (fun j => (out, j)) ∧
        (∀ b, b ≠ out → m'.cell b = m.cell b) ∧
        m'.array out = some zs' ∧ zs'.length = zs.length ∧
        (∀ j, j < i ∨ loopBound frame_size p.num_channels ≤ j → zs'[j]? = zs[j]?) ∧
        (∀ j x y, i ≤ j → j < loopBound frame_size p.num_channels →
          xs[j]? = some x → ys[j]? = some y →
          zs'[j]? = some (ops.sub x (ops.mul y ops.lit_0_1))) := by
  intro k
  induction k with
  | zero =>
    intro i m xs ys zs hik hp hxs hys hzs _ _ _
    refine ⟨m, zs, ?_, by simp, fun _ _ => rfl, hzs, rfl, fun _ _ => rfl, ?_⟩
    · rw [stream_loop, hp]
      have hn : ¬ ((i : Int) < wrapInt (frame_size * p.num_channels)) := by
        unfold loopBound at hik
        omega
      simp only [hn, dite_false]
      have : i = loopBound frame_size p.num_channels := by omega
      rw [← this]
    · intro j x y h1 h2
      omega
  | succ k ih =>
    intro i m xs ys zs hik hp hxs hys hzs hlx hly hlz
    have hc : (i : Int) < wrapInt (frame_size * p.num_channels) := by
      unfold loopBound at hik
      omega
    have hix : i < xs.length := by omega
    have hiy : i < ys.length := by omega
    have hiz : i < zs.length := by omega
    obtain ⟨m1, hst⟩ := Memory.store_some_of
      (ops.sub xs[i] (ops.mul ys[i] ops.lit_0_1)) hzs hiz
    have hp1 : m1.proc processor = some p := by rw [Memory.store_proc hst, hp]
    have hxs1 := Memory.store_array hst near hxs
    have hys1 := Memory.store_array hst far hys
    have hzs1 := Memory.store_array hst out hzs
    simp only [if_true] at hzs1
    obtain ⟨m', zs', hrun, hstores, hcells, harr, hlen, hkeep, hnew⟩ :=
      ih (i + 1) m1 _ _ _ (by omega) hp1 hxs1 hys1 hzs1
        (by rw [ite_set_length]; exact hlx) (by rw [ite_set_length]; exact hly)
        (by rw [List.length_set]; exact hlz)
    refine ⟨m', zs', ?_, ?_, ?_, harr, ?_, ?_, ?_⟩
    · rw [stream_loop, hp]
      simp only [hc, dite_true]
      rw [Memory.load_of_array hxs, Memory.load_of_array hys,
        List.getElem?_eq_getElem hix, List.getElem?_eq_getElem hiy]
      simp only [hst]
      exact hrun
    · rw [hstores, Memory.store_stores hst, List.range'_succ]
      simp
    · intro b hb
      rw [hcells b hb, Memory.store_cell_ne hst b hb]
    · rw [hlen, List.length_set]
    · intro j hj
      rw [hkeep j (by omega)]
      exact set_getElem?_other zs i j _ (by omega)
    · intro j x y h1 h2 hx hy
      by_cases hji : j = i
      · subst hji
        rw [hkeep j (by omega), List.getElem?_set_self hiz]
        rw [List.getElem?_eq_getElem hix] at hx
        rw [List.getElem?_eq_getElem hiy] at hy
        rw [Option.some.inj hx, Option.some.inj hy]
      · apply hnew j x y (by omega) h2
        · rw [ite_set_getElem?_other _ xs i j _ hji]; exact hx
        · rw [ite_set_getElem?_other _ ys i j _ hji]; exact hy

theorem stream_loop_preserves (ops : FloatOps α) (processor near far out : Nat)
    (frame_size : Int) :
    ∀ (k i : Nat) (m : Memory α) (j : Nat) (m' : Memory α),
      2147483648 - i = k →
      stream_loop ops processor near far out frame_size i m = some (j, m') →
      (∀ b, m'.proc b = m.proc b) ∧ m'.cells.length = m.cells.length := by
  intro k
  induction k with
  | zero =>
    intro i m j m' hk h
    rw [stream_loop] at h
    split at h
    · exact absurd h (by simp)
    · rename_i p hp
      have hn : ¬ ((i : Int) < wrapInt (frame_size * p.num_channels)) := by
        unfold wrapInt
        omega
      simp only [hn, dite_false] at h
      cases Option.some.inj h
      exact ⟨fun _ => rfl, rfl⟩
  | succ k ih =>
    intro i m j m' hk h
    rw [stream_loop] at h
    split at h
    · exact absurd h (by simp)
    · rename_i p hp
      by_cases hc : (i : Int) < wrapInt (frame_size * p.num_channels)
      · simp only [hc, dite_true] at h
        split at h
        · rename_i a b ha hb
          split at h
          · rename_i m1 hst
            obtain ⟨h1, h2⟩ := ih (i + 1) m1 j m' (by omega) h
            refine ⟨fun b => ?_, ?_⟩
            · rw [h1 b, Memory.store_proc hst]
            · rw [h2, Memory.store_cells_length hst]
          · exact absurd h (by simp)
        · exact absurd h (by simp)
      · simp only [hc, dite_false] at h
        cases Option.some.inj h
        exact ⟨fun _ => rfl, rfl⟩

theorem stream_loop_short (ops : FloatOps α) (processor near far out : Nat)
    (frame_size : Int) (p : WebRTCAEC3Processor α) (a : Nat)
    (ha : a = near ∨ a = far ∨ a = out) :
    ∀ (k i : Nat) (m : Memory α) (xs : List α),
      m.proc processor = some p → m.array a = some xs →
      xs.length = i + k → xs.length < loopBound frame_size p.num_channels →
      stream_loop ops processor near far out frame_size i m = none := by
  intro k
  induction k with
  | zero =>
    intro i m xs hp hxs hlen hlt
    have hc : (i : Int) < wrapInt (frame_size * p.num_channels) := by
      unfold loopBound at hlt
      omega
    have hnone : xs[i]? = none := by
      rw [List.getElem?_eq_none_iff]
      omega
    rw [stream_loop, hp]
    simp only [hc, dite_true]
    rcases ha with rfl | rfl | rfl
    · rw [Memory.load_of_array hxs, hnone]
    · rw [Memory.load_of_array hxs, hnone]
      cases m.load near i <;> rfl
    · cases hl1 : m.load near i with
      | none => rfl
      | some x =>
        cases hl2 : m.load far i with
        | none => rfl
        | some y =>
          have : m.store a i (ops.sub x (ops.mul y ops.lit_0_1)) = none := by
            unfold Memory.store
            rw [hxs]
            have : ¬ i < xs.length := by omega
            simp [this]
          simp only [this]
  | succ k ih =>
    intro i m xs hp hxs hlen hlt
    have hc : (i : Int) < wrapInt (frame_size * p.num_channels) := by
      unfold loopBound at hlt
      omega
    rw [stream_loop, hp]
    simp only [hc, dite_true]
    cases hl1 : m.load near i with
    | none => rfl
    | some x =>
      cases hl2 : m.load far i with
      | none => rfl
      | some y =>
        cases hst : m.store out i (ops.sub x (ops.mul y ops.lit_0_1)) with
        | none => simp only [hst]
        | some m1 =>
          simp only [hst]
          apply ih (i + 1) m1 _ (by rw [Memory.store_proc hst, hp])
            (Memory.store_array hst a hxs)
          · rw [ite_set_length]; omega
          · rw [ite_set_length]; exact hlt

/-- C2: `webrtc_aec3_process_stream` returns `-1` exactly when the handle or
one of `near_end`, `far_end`, `output` is null or `frame_size ≤ 0`, and such a
call changes nothing in memory: no element of `output` (or of any array) is
written, only the log grows by the error message. -/
theorem process_stream_rejects_iff (ops : FloatOps α) (w : World α)
    (processor near_end far_end output : Ptr) (frame_size : Int) :
    ((webrtc_aec3_process_stream ops w processor near_end far_end output frame_size).map
        Prod.fst = some (-1)
      ↔ streamArgsInvalid processor near_end far_end output frame_size) ∧
    (streamArgsInvalid processor near_end far_end output frame_size →
      webrtc_aec3_process_stream ops w processor near_end far_end output frame_size
        = some (-1, { mem := w.mem, log := w.log ++ [.error_invalid_args] })) := by
  unfold streamArgsInvalid webrtc_aec3_process_stream
  by_cases h : processor = 0 ∨ near_end = 0 ∨ far_end = 0 ∨ output = 0 ∨ frame_size ≤ 0
  · simp only [h, if_true, Option.map_some', true_iff, forall_true_left, and_self]
  · simp only [h, if_false, iff_false, false_implies, and_true]
    cases stream_loop ops processor near_end far_end output frame_size 0 w.mem with
    | none => simp
    | some r => simp

/-- Witness for C2: a null `near_end` on a live handle is rejected with `-1`
and the memory is left as it was. -/
theorem process_stream_rejects_iff_witness :
    webrtc_aec3_process_stream binary32 monoWorld 4 0 2 3 10
      = some (-1, { mem := monoWorld.mem, log := monoWorld.log ++ [.error_invalid_args] }) :=
  (process_stream_rejects_iff binary32 monoWorld 4 0 2 3 10).2 (Or.inr (Or.inl rfl))

/-- C4: `webrtc_aec3_process_reference` returns `-1` when the handle or the
reference buffer is null or `frame_size ≤ 0`, and `0` in every other case,
whatever the memory holds; it writes nothing to memory. -/
theorem process_reference_status (w : World α) (processor reference : Ptr) (frame_size : Int) :
    (webrtc_aec3_process_reference w processor reference frame_size).1
        = (if processor = 0 ∨ reference = 0 ∨ frame_size ≤ 0 then -1 else 0) ∧
    (webrtc_aec3_process_reference w processor reference frame_size).2.mem = w.mem := by
  unfold webrtc_aec3_process_reference
  split <;> exact ⟨rfl, rfl⟩

/-- C8: `webrtc_aec3_destroy` applied to the null pointer returns with the
state (memory, live handles, log) exactly as it was. -/
theorem destroy_null_noop (w : World α) : webrtc_aec3_destroy w 0 = some w := by
  unfold webrtc_aec3_destroy
  simp

theorem process_reference_mem (w : World α) (processor reference : Ptr) (frame_size : Int) :
    (webrtc_aec3_process_reference w processor reference frame_size).2.mem = w.mem := by
  unfold webrtc_aec3_process_reference
  split <;> rfl

theorem run_references_mem (w : World α) (processor : Ptr) (refs : List (Ptr × Int)) :
    (run_references w processor refs).mem = w.mem := by
  induction refs generalizing w with
  | nil => rfl
  | cons r rest ih =>
    obtain ⟨reference, frame_size⟩ := r
    unfold run_references
    rw [ih, process_reference_mem]

theorem process_stream_mem_only (ops : FloatOps α) (w w' : World α) (h : w'.mem = w.mem)
    (processor near_end far_end output : Ptr) (frame_size : Int) :
    (webrtc_aec3_process_stream ops w' processor near_end far_end output frame_size).map
        (fun r => (r.1, r.2.mem))
      = (webrtc_aec3_process_stream ops w processor near_end far_end output frame_size).map
        (fun r => (r.1, r.2.mem)) := by
  unfold webrtc_aec3_process_stream
  rw [h]
  split
  · simp [h]
  · cases stream_loop ops processor near_end far_end output frame_size 0 w.mem with
    | none => rfl
    | some r => rfl

theorem process_stream_proc (ops : FloatOps α) (w w' : World α)
    (processor near_end far_end output : Ptr) (frame_size st : Int)
    (h : webrtc_aec3_process_stream ops w processor near_end far_end output frame_size
      = some (st, w')) (b : Nat) : w'.mem.proc b = w.mem.proc b := by
  unfold webrtc_aec3_process_stream at h
  split at h
  · cases Option.some.inj h
    rfl
  · split at h
    · rename_i j m hl
      cases Option.some.inj h
      exact (stream_loop_preserves ops processor near_end far_end output frame_size _ 0
        w.mem j m rfl hl).1 b
    · exact absurd h (by simp)

theorem exec_proc (ops : FloatOps α) (w w' : World α) (c : Call) (st : Int)
    (h : c.exec ops w = some (st, w')) (b : Nat) : w'.mem.proc b = w.mem.proc b := by
  cases c with
  | stream processor near_end far_end output frame_size =>
    exact process_stream_proc ops w w' processor near_end far_end output frame_size st h b
  | reference processor ref frame_size =>
    unfold Call.exec at h
    have h2 : (webrtc_aec3_process_reference w processor ref frame_size).2 = w' := by
      rw [Option.some.inj h]
    rw [← h2, process_reference_mem]

theorem run_proc (ops : FloatOps α) (calls : List Call) :
    ∀ (w w' : World α), run ops w calls = some w' → ∀ b : Nat, w'.mem.proc b = w.mem.proc b := by
  induction calls with
  | nil =>
    intro w w' h b
    unfold run at h
    cases Option.some.inj h
    rfl
  | cons c cs ih =>
    intro w w' h b
    unfold run at h
    split at h
    · rename_i st w1 hc
      rw [ih w1 w' h b, exec_proc ops w w1 c st hc b]
    · exact absurd h (by simp)

theorem Memory.proc_append (m : Memory α) (p : WebRTCAEC3Processor α) :
    Memory.proc { m with cells := m.cells ++ [some (.processor p)] } (m.cells.length + 1)
      = some p := by
  unfold Memory.proc Memory.cell
  simp

theorem create_ok (env : Env) (w0 w1 : World α) (sample_rate num_channels : Int) (h : Nat)
    (hc : webrtc_aec3_create env w0 sample_rate num_channels = .ok (h, w1)) (hh : h ≠ 0) :
    0 < sample_rate ∧ 0 < num_channels ∧ env.new_ok = true ∧
    ∃ buffer : FloatVector α,
      FloatVector.reserve env ⟨[], 0⟩ (toSizeT env.abi (wrapInt (sample_rate * num_channels)))
        = .ok buffer ∧
      h = w0.mem.cells.length + 1 ∧
      w1 = { mem := { w0.mem with cells := w0.mem.cells ++
                        [some (.processor ⟨sample_rate, num_channels, buffer⟩)] },
             log := w0.log ++ [.info_init sample_rate num_channels] ++ [.info_created] } := by
  unfold webrtc_aec3_create at hc
  split at hc
  · injection hc with hc
    injection hc with h1 h2
    exact absurd h1.symm hh
  · rename_i hpos
    split at hc
    · rename_i hnew
      unfold WebRTCAEC3Processor.ctor at hc
      cases hr : FloatVector.reserve env (⟨[], 0⟩ : FloatVector α)
          (toSizeT env.abi (wrapInt (sample_rate * num_channels))) with
      | error e =>
        simp only [hr] at hc
        exact absurd hc (by simp)
      | ok buffer =>
        simp only [hr] at hc
        injection hc with hc
        injection hc with h1 h2
        refine ⟨by omega, by omega, hnew, buffer, rfl, h1.symm, h2.symm⟩
    · injection hc with hc
      injection hc with h1 h2
      exact absurd h1.symm hh

theorem binExponent_eval (q : ℚ) (n d : Nat) (k : Int) (hn : q.num.natAbs = n) (hd : q.den = d)
    (hk : (ilog2 n : Int) - (ilog2 d : Int) = k) :
    binExponent q = if (2 : ℚ) ^ k ≤ |q| then k else k - 1 := by
  unfold binExponent
  simp only [hn, hd, hk]

theorem binary32_lit : binary32.lit_0_1 = 13421773 / 134217728 := by
  have he : binExponent (1 / 10) = -4 := by
    rw [binExponent_eval (1 / 10) 1 10 (-3) (by norm_num) (by norm_num) (by decide)]
    norm_num [abs_of_pos]
  show roundF32 (1 / 10) = _
  unfold roundF32
  rw [he]
  norm_num [roundHalfEven]

theorem binary32_mul_half_lit :
    binary32.mul (1 / 2) (13421773 / 134217728) = 13421773 / 268435456 := by
  have hq : (1 / 2 : ℚ) * (13421773 / 134217728) = 13421773 / 268435456 := by norm_num
  have he : binExponent (13421773 / 268435456) = -5 := by
    rw [binExponent_eval (13421773 / 268435456) 13421773 268435456 (-5)
      (by norm_num) (by norm_num) (by decide)]
    norm_num [abs_of_pos]
  show roundF32 (1 / 2 * (13421773 / 134217728)) = _
  rw [hq]
  unfold roundF32
  rw [he]
  norm_num [roundHalfEven]

theorem binary32_sub_one :
    binary32.sub 1 (13421773 / 268435456) = 15938355 / 16777216 := by
  have hq : (1 : ℚ) - 13421773 / 268435456 = 255013683 / 268435456 := by norm_num
  have he : binExponent (255013683 / 268435456) = -1 := by
    rw [binExponent_eval (255013683 / 268435456) 255013683 268435456 (-1)
      (by norm_num) (by norm_num) (by decide)]
    norm_num [abs_of_pos]
  show roundF32 (1 - 13421773 / 268435456) = _
  rw [hq]
  unfold roundF32
  rw [he]
  norm_num [roundHalfEven]

theorem binary32_point_95 : roundF32 (95 / 100) = 15938355 / 16777216 := by
  have he : binExponent (95 / 100) = -1 := by
    rw [binExponent_eval (95 / 100) 19 20 0 (by norm_num) (by norm_num) (by decide)]
    norm_num [abs_of_pos]
  unfold roundF32
  rw [he]
  norm_num [roundHalfEven]

theorem binary32_sample : binary32.sub 1 (binary32.mul (1 / 2) binary32.lit_0_1)
    = 15938355 / 16777216 := by
  rw [binary32_lit, binary32_mul_half_lit, binary32_sub_one]

theorem wrapInt_of_range (x : Int) (h1 : -2147483648 ≤ x) (h2 : x ≤ 2147483647) :
    wrapInt x = x := by
  unfold wrapInt
  omega

theorem stream_loop_step (ops : FloatOps α) (processor near far out : Nat) (frame_size : Int)
    (i : Nat) (m m1 : Memory α) (p : WebRTCAEC3Processor α) (a b : α)
    (hp : m.proc processor = some p) (hc : i < loopBound frame_size p.num_channels)
    (ha : m.load near i = some a) (hb : m.load far i = some b)
    (hst : m.store out i (ops.sub a (ops.mul b ops.lit_0_1)) = some m1) :
    stream_loop ops processor near far out frame_size i m
      = stream_loop ops processor near far out frame_size (i + 1) m1 := by
  have hc' : (i : Int) < wrapInt (frame_size * p.num_channels) := by
    unfold loopBound at hc
    omega
  rw [stream_loop, hp]
  simp only [hc', dite_true, ha, hb, hst]

theorem stream_loop_exit (ops : FloatOps α) (processor near far out : Nat) (frame_size : Int)
    (i : Nat) (m : Memory α) (p : WebRTCAEC3Processor α)
    (hp : m.proc processor = some p) (hc : loopBound frame_size p.num_channels ≤ i) :
    stream_loop ops processor near far out frame_size i m = some (i, m) := by
  have hc' : ¬ ((i : Int) < wrapInt (frame_size * p.num_channels)) := by
    unfold loopBound at hc
    omega
  rw [stream_loop, hp]
  simp only [hc', dite_false]

theorem monoWorld_loop :
    stream_loop binary32 4 1 2 3 2 0 monoWorld.mem
      = some (2, monoProcessed) := by
  have hb : loopBound 2 1 = 2 := by decide
  rw [stream_loop_step binary32 4 1 2 3 2 0 monoWorld.mem
        { cells := [some (.floats [1, 1]), some (.floats [1 / 2, 1 / 2]),
                    some (.floats [15938355 / 16777216, 0]),
                    some (.processor ⟨16000, 1, ⟨[], 16000⟩⟩)],
          stores := [(3, 0)] }
        ⟨16000, 1, ⟨[], 16000⟩⟩ 1 (1 / 2)
        (by simp [monoWorld, Memory.proc, Memory.cell]) (by rw [hb]; decide)
        (by simp [monoWorld, Memory.load, Memory.array, Memory.cell])
        (by simp [monoWorld, Memory.load, Memory.array, Memory.cell])
        (by rw [binary32_sample]; simp [monoWorld, Memory.store, Memory.array, Memory.cell])]
  rw [stream_loop_step binary32 4 1 2 3 2 1 _ monoProcessed
        ⟨16000, 1, ⟨[], 16000⟩⟩ 1 (1 / 2)
        (by simp [Memory.proc, Memory.cell]) (by rw [hb]; decide)
        (by simp [Memory.load, Memory.array, Memory.cell])
        (by simp [Memory.load, Memory.array, Memory.cell])
        (by rw [binary32_sample]; simp [monoProcessed, Memory.store, Memory.array, Memory.cell])]
  exact stream_loop_exit binary32 4 1 2 3 2 2 _ ⟨16000, 1, ⟨[], 16000⟩⟩
    (by simp [monoProcessed, Memory.proc, Memory.cell]) (by rw [hb])

theorem Memory.proc_ne_zero {m : Memory α} {a : Nat} {p : WebRTCAEC3Processor α}
    (h : m.proc a = some p) : a ≠ 0 := by
  intro ha
  subst ha
  simp [Memory.proc, Memory.cell] at h

theorem loopBound_of_range (n c : Int) (h1 : 0 ≤ n * c) (h2 : n * c ≤ INT_MAX) :
    loopBound n c = (n * c).toNat := by
  unfold loopBound
  unfold INT_MAX at h2
  rw [wrapInt_of_range _ (by omega) h2]

/-- Functional correctness of `webrtc_aec3_process_stream` when the `int`
product `frame_size * num_channels` does not overflow: the call returns `0`
after `frame_size * num_channels` iterations, stores to exactly the indices
below that bound of `output`, in order, leaves every other cell alone and
keeps the rest of `output`. -/
theorem process_stream_spec (ops : FloatOps α) (w : World α) (processor near far out : Nat)
    (p : WebRTCAEC3Processor α) (n : Int) (xs ys zs : List α)
    (hp : w.mem.proc processor = some p) (hn : 0 < n)
    (hxs : w.mem.array near = some xs) (hys : w.mem.array far = some ys)
    (hzs : w.mem.array out = some zs)
    (hlx : loopBound n p.num_channels ≤ xs.length)
    (hly : loopBound n p.num_channels ≤ ys.length)
    (hlz : loopBound n p.num_channels ≤ zs.length) :
    ∃ m' zs',
      stream_loop ops processor near far out n 0 w.mem
        = some (loopBound n p.num_channels, m') ∧
      webrtc_aec3_process_stream ops w processor near far out n
        = some (0, { mem := m', log := w.log }) ∧
      m'.stores = w.mem.stores ++
        (List.range' 0 (loopBound n p.num_channels)).map (fun j => (out, j)) ∧
      (∀ b, b ≠ out → m'.cell b = w.mem.cell b) ∧
      m'.array out = some zs' ∧ zs'.length = zs.length ∧
      (∀ j, loopBound n p.num_channels ≤ j → zs'[j]? = zs[j]?) ∧
      (∀ j x y, j < loopBound n p.num_channels → xs[j]? = some x → ys[j]? = some y →
        zs'[j]? = some (ops.sub x (ops.mul y ops.lit_0_1))) := by
  obtain ⟨m', zs', hrun, hst, hcell, harr, hlen, hkeep, hnew⟩ :=
    stream_loop_spec ops processor near far out n p (loopBound n p.num_channels) 0 w.mem
      xs ys zs (by omega) hp hxs hys hzs hlx hly hlz
  refine ⟨m', zs', hrun, ?_, hst, hcell, harr, hlen, fun j hj => hkeep j (Or.inr hj),
    fun j x y hj hx hy => hnew j x y (Nat.zero_le j) hj hx hy⟩
  unfold webrtc_aec3_process_stream
  have h1 := Memory.proc_ne_zero hp
  have h2 := (Memory.array_eq_some hxs).1
  have h3 := (Memory.array_eq_some hys).1
  have h4 := (Memory.array_eq_some hzs).1
  have : ¬ (processor = 0 ∨ near = 0 ∨ far = 0 ∨ out = 0 ∨ n ≤ 0) := by
    simp only [h1, h2, h3, h4, false_or]
    omega
  simp only [this, if_false, hrun]

theorem toSizeT_of_range (abi : Abi) (x : Int) (h1 : 0 ≤ x) (h2 : x ≤ INT_MAX) :
    toSizeT abi x = x.toNat := by
  unfold INT_MAX at h2
  unfold toSizeT
  congr 1
  apply Int.emod_eq_of_lt h1
  cases abi
  · show x < (2 : Int) ^ 32
    norm_num
    omega
  · show x < (2 : Int) ^ 64
    norm_num
    omega

theorem create_valid (env : Env) (w : World α) (sample_rate num_channels : Int)
    (hr : 0 < sample_rate) (hc : 0 < num_channels)
    (hint : sample_rate * num_channels ≤ INT_MAX)
    (hmax : (sample_rate * num_channels).toNat ≤ max_size env.abi)
    (hnew : env.new_ok = true)
    (halloc : env.alloc_ok (sample_rate * num_channels).toNat = true) :
    webrtc_aec3_create env w sample_rate num_channels
      = .ok (w.mem.cells.length + 1,
          { mem := { w.mem with cells := w.mem.cells ++ [some (.processor
                      ⟨sample_rate, num_channels,
                        ⟨[], (sample_rate * num_channels).toNat⟩⟩)] },
            log := w.log ++ [.info_init sample_rate num_channels] ++ [.info_created] }) := by
  have hpos : 0 < sample_rate * num_channels := Int.mul_pos hr hc
  have hw : wrapInt (sample_rate * num_channels) = sample_rate * num_channels := by
    unfold INT_MAX at hint
    exact wrapInt_of_range _ (by omega) hint
  have hs : toSizeT env.abi (wrapInt (sample_rate * num_channels))
      = (sample_rate * num_channels).toNat := by
    rw [hw]
    exact toSizeT_of_range env.abi _ (by omega) hint
  have hn : ¬ (sample_rate ≤ 0 ∨ num_channels ≤ 0) := by omega
  have hcap : (sample_rate * num_channels).toNat > 0 := by omega
  have hmax' : ¬ ((sample_rate * num_channels).toNat > max_size env.abi) := by omega
  unfold webrtc_aec3_create WebRTCAEC3Processor.ctor FloatVector.reserve
  simp only [hn, if_false, hnew, if_true, hs, hcap, hmax', halloc]

theorem create_arraysWorld :
    webrtc_aec3_create plentyEnv arraysWorld 16000 1 = .ok (4, monoWorld) := by
  rw [create_valid plentyEnv arraysWorld 16000 1 (by decide) (by decide) (by decide)
    (by decide) rfl rfl]
  have h : ((16000 : Int) * 1).toNat = 16000 := by decide
  rw [h]
  rfl


theorem process_stream_invalid (ops : FloatOps α) (w : World α)
    (processor near_end far_end output : Ptr) (frame_size : Int)
    (h : processor = 0 ∨ near_end = 0 ∨ far_end = 0 ∨ output = 0 ∨ frame_size ≤ 0) :
    webrtc_aec3_process_stream ops w processor near_end far_end output frame_size
      = some (-1, { mem := w.mem, log := w.log ++ [.error_invalid_args] }) := by
  unfold webrtc_aec3_process_stream
  simp only [h, if_true]

theorem process_stream_of_loop (ops : FloatOps α) (w : World α)
    (processor near_end far_end output : Ptr) (frame_size : Int) (j : Nat) (m : Memory α)
    (h : ¬ (processor = 0 ∨ near_end = 0 ∨ far_end = 0 ∨ output = 0 ∨ frame_size ≤ 0))
    (hl : stream_loop ops processor near_end far_end output frame_size 0 w.mem = some (j, m)) :
    webrtc_aec3_process_stream ops w processor near_end far_end output frame_size
      = some (0, { mem := m, log := w.log }) := by
  unfold webrtc_aec3_process_stream
  simp only [h, if_false, hl]

theorem process_reference_valid (w : World α) (processor reference : Ptr) (frame_size : Int)
    (h : ¬ (processor = 0 ∨ reference = 0 ∨ frame_size ≤ 0)) :
    webrtc_aec3_process_reference w processor reference frame_size
      = (0, { mem := w.mem, log := w.log ++ [.info_reference frame_size] }) := by
  unfold webrtc_aec3_process_reference
  simp only [h, if_false]

theorem run_nil (ops : FloatOps α) (w : World α) : run ops w [] = some w := by
  unfold run
  rfl

theorem run_cons (ops : FloatOps α) (w w1 : World α) (c : Call) (cs : List Call) (st : Int)
    (h : c.exec ops w = some (st, w1)) : run ops w (c :: cs) = run ops w1 cs := by
  rw [run, h]

theorem exec_reference (ops : FloatOps α) (w : World α) (processor ref : Ptr)
    (frame_size : Int) :
    Call.exec ops w (.reference processor ref frame_size)
      = some (webrtc_aec3_process_reference w processor ref frame_size) := by
  unfold Call.exec
  rfl

theorem exec_stream (ops : FloatOps α) (w : World α) (processor near_end far_end output : Ptr)
    (frame_size : Int) :
    Call.exec ops w (.stream processor near_end far_end output frame_size)
      = webrtc_aec3_process_stream ops w processor near_end far_end output frame_size := by
  unfold Call.exec
  rfl

theorem monoWorld_run :
    run binary32 monoWorld [.reference 4 2 2, .stream 4 1 2 0 2, .stream 4 1 2 3 2]
      = some { mem := monoProcessed,
               log := monoWorld.log ++ [.info_reference 2, .error_invalid_args] } := by
  rw [run_cons binary32 monoWorld
        { mem := monoWorld.mem, log := monoWorld.log ++ [.info_reference 2] } _ _ 0
        (by rw [exec_reference, process_reference_valid _ _ _ _ (by decide)])]
  rw [run_cons binary32 _
        { mem := monoWorld.mem,
          log := monoWorld.log ++ [.info_reference 2] ++ [.error_invalid_args] } _ _ (-1)
        (by rw [exec_stream, process_stream_invalid _ _ _ _ _ _ _ (by decide)])]
  rw [run_cons binary32 _
        { mem := monoProcessed,
          log := monoWorld.log ++ [.info_reference 2] ++ [.error_invalid_args] } _ _ 0
        (by rw [exec_stream,
              process_stream_of_loop binary32
                { mem := monoWorld.mem,
                  log := monoWorld.log ++ [.info_reference 2] ++ [.error_invalid_args] }
                4 1 2 3 2 2 monoProcessed (by decide) monoWorld_loop])]
  rw [run_nil]
  rfl

/-- C5: any sequence of `webrtc_aec3_process_reference` calls on a handle
(any reference pointers, any frame sizes, accepted or rejected) followed by a
`webrtc_aec3_process_stream` call yields the same status and the same memory
(so the same output buffer) as that `webrtc_aec3_process_stream` call made
alone. -/
theorem reference_calls_do_not_couple (ops : FloatOps α) (w : World α)
    (processor near_end far_end output : Ptr) (frame_size : Int)
    (refs : List (Ptr × Int)) :
    (webrtc_aec3_process_stream ops (run_references w processor refs)
        processor near_end far_end output frame_size).map (fun r => (r.1, r.2.mem))
      = (webrtc_aec3_process_stream ops w
        processor near_end far_end output frame_size).map (fun r => (r.1, r.2.mem)) :=
  process_stream_mem_only ops w (run_references w processor refs)
    (run_references_mem w processor refs) processor near_end far_end output frame_size

/-- C6: a handle returned by `webrtc_aec3_create(sample_rate, num_channels)`
holds exactly these two arguments, both strictly positive, and an empty
buffer; after any sequence of `webrtc_aec3_process_stream` and
`webrtc_aec3_process_reference` calls, accepted or rejected, on any
arguments, the object at the handle is the one `webrtc_aec3_create` built:
same `sample_rate`, `num_channels` and `buffer`. -/
theorem handle_invariant (ops : FloatOps α) (env : Env) (w0 w1 w : World α)
    (sample_rate num_channels : Int) (handle : Ptr) (calls : List Call)
    (hcreate : webrtc_aec3_create env w0 sample_rate num_channels = .ok (handle, w1))
    (hnonnull : handle ≠ 0)
    (hrun : run ops w1 calls = some w) :
    0 < sample_rate ∧ 0 < num_channels ∧
    ∃ buffer : FloatVector α, buffer.data = [] ∧
      w1.mem.proc handle = some ⟨sample_rate, num_channels, buffer⟩ ∧
      w.mem.proc handle = some ⟨sample_rate, num_channels, buffer⟩ := by
  obtain ⟨h1, h2, _, buffer, hres, hh, hw1⟩ :=
    create_ok env w0 w1 sample_rate num_channels handle hcreate hnonnull
  have hdata : buffer.data = [] := by
    unfold FloatVector.reserve at hres
    split at hres
    · split at hres
      · exact absurd hres (by simp)
      · split at hres
        · injection hres with hres
          rw [← hres]
        · exact absurd hres (by simp)
    · injection hres with hres
      rw [← hres]
  have hp1 : w1.mem.proc handle = some ⟨sample_rate, num_channels, buffer⟩ := by
    rw [hw1, hh]
    exact Memory.proc_append w0.mem _
  refine ⟨h1, h2, buffer, hdata, hp1, ?_⟩
  rw [run_proc ops calls w1 w hrun handle, hp1]

/-- Witness for C6: the handle created in `arraysWorld` keeps its object
through an accepted reference call, a rejected stream call and an accepted
stream call. -/
theorem handle_invariant_witness :
    (0 : Int) < 16000 ∧ (0 : Int) < 1 ∧
    ∃ buffer : FloatVector ℚ, buffer.data = [] ∧
      monoWorld.mem.proc 4 = some ⟨16000, 1, buffer⟩ ∧
      monoProcessed.proc 4 = some ⟨16000, 1, buffer⟩ :=
  handle_invariant binary32 plentyEnv arraysWorld monoWorld
    { mem := monoProcessed,
      log := monoWorld.log ++ [.info_reference 2, .error_invalid_args] }
    16000 1 4
    [.reference 4 2 2, .stream 4 1 2 0 2, .stream 4 1 2 3 2]
    create_arraysWorld (by decide) monoWorld_run

theorem stream_short_none (ops : FloatOps α) (w : World α) (processor near far out : Nat)
    (p : WebRTCAEC3Processor α) (n : Int) (a : Nat) (xs : List α)
    (ha : a = near ∨ a = far ∨ a = out)
    (hp : w.mem.proc processor = some p) (hxs : w.mem.array a = some xs)
    (hlt : xs.length < loopBound n p.num_channels)
    (hvalid : ¬ (processor = 0 ∨ near = 0 ∨ far = 0 ∨ out = 0 ∨ n ≤ 0)) :
    webrtc_aec3_process_stream ops w processor near far out n = none := by
  unfold webrtc_aec3_process_stream
  simp only [hvalid, if_false]
  rw [stream_loop_short ops processor near far out n p a ha xs.length 0 w.mem xs hp hxs
    (by omega) hlt]

/-- C10: on a live handle with `c ≥ 1` channels, for `frame_size = n > 0` with
`n × c ≤ 2^31 − 1`: when `near_end`, `far_end` and `output` each hold at
least `n × c` samples, no access of the loop is out of bounds (the call does
not yield `none`), the loop is left after exactly `n × c` iterations and the
call returns `0`; and when `c = 2` and one of the three arrays holds only `n`
samples, some access is out of bounds. -/
theorem process_stream_in_bounds (ops : FloatOps α) (w : World α)
    (processor near_end far_end output : Ptr) (p : WebRTCAEC3Processor α) (n : Int)
    (xs ys zs : List α)
    (hp : w.mem.proc processor = some p) (hc : 1 ≤ p.num_channels) (hn : 0 < n)
    (hov : n * p.num_channels ≤ INT_MAX)
    (hxs : w.mem.array near_end = some xs) (hys : w.mem.array far_end = some ys)
    (hzs : w.mem.array output = some zs) :
    (n * p.num_channels ≤ xs.length → n * p.num_channels ≤ ys.length →
      n * p.num_channels ≤ zs.length →
      ∃ m', stream_loop ops processor near_end far_end output n 0 w.mem
              = some ((n * p.num_channels).toNat, m') ∧
            webrtc_aec3_process_stream ops w processor near_end far_end output n
              = some (0, { mem := m', log := w.log })) ∧
    (p.num_channels = 2 →
      ((xs.length : Int) = n ∨ (ys.length : Int) = n ∨ (zs.length : Int) = n) →
      webrtc_aec3_process_stream ops w processor near_end far_end output n = none) := by
  have hpos : 0 < n * p.num_channels := Int.mul_pos hn (by omega)
  have hb : loopBound n p.num_channels = (n * p.num_channels).toNat :=
    loopBound_of_range n p.num_channels (by omega) hov
  constructor
  · intro hlx hly hlz
    obtain ⟨m', zs', hrun, hres, _⟩ :=
      process_stream_spec ops w processor near_end far_end output p n xs ys zs hp hn
        hxs hys hzs (by omega) (by omega) (by omega)
    rw [hb] at hrun
    exact ⟨m', hrun, hres⟩
  · intro hc2 hlen
    have hvalid : ¬ (processor = 0 ∨ near_end = 0 ∨ far_end = 0 ∨ output = 0 ∨ n ≤ 0) := by
      have h1 := Memory.proc_ne_zero hp
      have h2 := (Memory.array_eq_some hxs).1
      have h3 := (Memory.array_eq_some hys).1
      have h4 := (Memory.array_eq_some hzs).1
      simp only [h1, h2, h3, h4, false_or]
      omega
    rw [hc2] at hb
    rcases hlen with h | h | h
    · exact stream_short_none ops w processor near_end far_end output p n near_end xs
        (Or.inl rfl) hp hxs (by rw [hc2, hb]; omega) hvalid
    · exact stream_short_none ops w processor near_end far_end output p n far_end ys
        (Or.inr (Or.inl rfl)) hp hys (by rw [hc2, hb]; omega) hvalid
    · exact stream_short_none ops w processor near_end far_end output p n output zs
        (Or.inr (Or.inr rfl)) hp hzs (by rw [hc2, hb]; omega) hvalid

theorem monoWorld_proc : monoWorld.mem.proc 4 = some ⟨16000, 1, ⟨[], 16000⟩⟩ := by
  simp [monoWorld, Memory.proc, Memory.cell]

theorem stereoShortWorld_proc :
    stereoShortWorld.mem.proc 4 = some ⟨48000, 2, ⟨[], 96000⟩⟩ := by
  simp [stereoShortWorld, Memory.proc, Memory.cell]

/-- Witness for C10: two samples on one channel are processed in two
iterations within arrays of two samples; one stereo frame is not processed
within arrays of one sample. -/
theorem process_stream_in_bounds_witness :
    (∃ m', stream_loop binary32 4 1 2 3 2 0 monoWorld.mem = some (2, m') ∧
        webrtc_aec3_process_stream binary32 monoWorld 4 1 2 3 2
          = some (0, { mem := m', log := monoWorld.log })) ∧
    webrtc_aec3_process_stream binary32 stereoShortWorld 4 1 2 3 1 = none :=
  ⟨(process_stream_in_bounds binary32 monoWorld 4 1 2 3 ⟨16000, 1, ⟨[], 16000⟩⟩ 2
      [1, 1] [1 / 2, 1 / 2] [0, 0] monoWorld_proc (by decide) (by decide) (by decide)
      (by simp [monoWorld, Memory.array, Memory.cell])
      (by simp [monoWorld, Memory.array, Memory.cell])
      (by simp [monoWorld, Memory.array, Memory.cell])).1
      (by decide) (by decide) (by decide),
   (process_stream_in_bounds binary32 stereoShortWorld 4 1 2 3 ⟨48000, 2, ⟨[], 96000⟩⟩ 1
      [1] [1 / 2] [0] stereoShortWorld_proc (by decide) (by decide) (by decide)
      (by simp [stereoShortWorld, Memory.array, Memory.cell])
      (by simp [stereoShortWorld, Memory.array, Memory.cell])
      (by simp [stereoShortWorld, Memory.array, Memory.cell])).2
      rfl (Or.inl rfl)⟩

theorem stereoHugeWorld_proc :
    stereoHugeWorld.mem.proc 4 = some ⟨48000, 2, ⟨[], 96000⟩⟩ := by
  rfl

theorem loopBound_overflow : loopBound 1073741824 2 = 0 := by decide

theorem stereoHugeWorld_stream :
    webrtc_aec3_process_stream binary32 stereoHugeWorld 4 1 2 3 1073741824
      = some (0, stereoHugeWorld) :=
  process_stream_of_loop binary32 stereoHugeWorld 4 1 2 3 1073741824 0 stereoHugeWorld.mem
    (by decide)
    (stream_loop_exit binary32 4 1 2 3 1073741824 0 stereoHugeWorld.mem
      ⟨48000, 2, ⟨[], 96000⟩⟩ stereoHugeWorld_proc (by rw [loopBound_overflow]))

theorem stereoHugeWorld_arrays :
    stereoHugeWorld.mem.array 1 = some (List.replicate 2147483648 1) ∧
    stereoHugeWorld.mem.array 2 = some (List.replicate 2147483648 (1 / 2)) ∧
    stereoHugeWorld.mem.array 3 = some (List.replicate 2147483648 0) :=
  ⟨rfl, rfl, rfl⟩

/-- C1 (fails on the code): on the live stereo handle of `stereoHugeWorld`,
with `frame_size = 2^30` and three arrays of `2^30 × 2 = 2^31` samples, the
`int` product `frame_size * num_channels` wraps to `-2^31`, the loop body is
never run and `webrtc_aec3_process_stream` returns `0` with the state as it
was: `output[0]` is still `0`, not `near_end[0] − 0.1f × far_end[0]`, which is
the binary32 value nearest to `0.95`. -/
theorem process_stream_overflow_leaves_output :
    stereoHugeWorld.mem.proc 4 = some ⟨48000, 2, ⟨[], 96000⟩⟩ ∧
    (∃ xs ys zs : List ℚ,
      stereoHugeWorld.mem.array 1 = some xs ∧ stereoHugeWorld.mem.array 2 = some ys ∧
      stereoHugeWorld.mem.array 3 = some zs ∧
      (1073741824 * 2 : Int) ≤ xs.length ∧ (1073741824 * 2 : Int) ≤ ys.length ∧
      (1073741824 * 2 : Int) ≤ zs.length ∧
      xs[0]? = some 1 ∧ ys[0]? = some (1 / 2) ∧ zs[0]? = some 0) ∧
    webrtc_aec3_process_stream binary32 stereoHugeWorld 4 1 2 3 1073741824
      = some (0, stereoHugeWorld) ∧
    binary32.sub 1 (binary32.mul (1 / 2) binary32.lit_0_1) = 15938355 / 16777216 ∧
    binary32.sub 1 (binary32.mul (1 / 2) binary32.lit_0_1) ≠ 0 := by
  refine ⟨stereoHugeWorld_proc, ⟨_, _, _, stereoHugeWorld_arrays.1,
    stereoHugeWorld_arrays.2.1, stereoHugeWorld_arrays.2.2, ?_, ?_, ?_, ?_, ?_, ?_⟩,
    stereoHugeWorld_stream, binary32_sample, ?_⟩
  · rw [List.length_replicate]; decide
  · rw [List.length_replicate]; decide
  · rw [List.length_replicate]; decide
  · rw [List.getElem?_replicate]; simp
  · rw [List.getElem?_replicate]; simp
  · rw [List.getElem?_replicate]; simp
  · rw [binary32_sample]
    norm_num

/-- C9 (fails on the code): with `frame_size = 2^30` on a live stereo handle,
`webrtc_aec3_process_stream` returns `0` and performs no store at all, both
with arrays of `2^31` samples and with arrays of one sample, whereas
`n × c = 2^31` indices of `output` were to be written. -/
theorem process_stream_overflow_writes_nothing :
    (webrtc_aec3_process_stream binary32 stereoHugeWorld 4 1 2 3 1073741824).map
        (fun r => (r.1, r.2.mem.stores)) = some (0, []) ∧
    (webrtc_aec3_process_stream binary32 stereoShortWorld 4 1 2 3 1073741824).map
        (fun r => (r.1, r.2.mem.stores)) = some (0, []) := by
  constructor
  · rw [stereoHugeWorld_stream]
    rfl
  · rw [process_stream_of_loop binary32 stereoShortWorld 4 1 2 3 1073741824 0
      stereoShortWorld.mem (by decide)
      (stream_loop_exit binary32 4 1 2 3 1073741824 0 stereoShortWorld.mem
        ⟨48000, 2, ⟨[], 96000⟩⟩ stereoShortWorld_proc (by rw [loopBound_overflow]))]
    rfl

theorem toSizeT_overflow : toSizeT plentyEnv.abi (wrapInt (65536 * 65536)) = 0 := by decide

theorem toSizeT_negative :
    toSizeT plentyEnv.abi (wrapInt (46341 * 46341)) = 18446744071562072601 := by decide

/-- C7 (fails on the code): `webrtc_aec3_create(65536, 65536)` succeeds, with
every allocation granted, and the buffer of the handle has capacity `0`: the
`int` product `rate * channels` is `0`, while the product of the two
arguments is `2^32`. -/
theorem create_reserve_overflow :
    webrtc_aec3_create plentyEnv emptyWorld 65536 65536
      = .ok (1, { mem := { cells := [some (.processor ⟨65536, 65536, ⟨[], 0⟩⟩)],
                           stores := [] },
                  log := [.info_init 65536 65536, .info_created] }) ∧
    ((0 : Nat) : Int) < 65536 * 65536 := by
  constructor
  · unfold webrtc_aec3_create WebRTCAEC3Processor.ctor FloatVector.reserve
    have h : ¬ ((65536 : Int) ≤ 0 ∨ (65536 : Int) ≤ 0) := by decide
    simp only [h, if_false]
    show (if true = true then _ else _) = _
    rw [toSizeT_overflow]
    rfl
  · decide

theorem create_invalid (env : Env) (w : World α) (sample_rate num_channels : Int)
    (h : sample_rate ≤ 0 ∨ num_channels ≤ 0) :
    webrtc_aec3_create env w sample_rate num_channels
      = .ok (0, { mem := w.mem,
                  log := w.log ++ [.error_create_args sample_rate num_channels] }) := by
  unfold webrtc_aec3_create
  simp only [h, if_true]

/-- C3 (as stated, fails): with positive arguments `webrtc_aec3_create` does
not always return a handle.  `create(48000, 2)` returns the null pointer when
`operator new` finds no storage; `create(46341, 46341)` does not return at
all: the `int` product wraps to a negative value, its conversion to `size_t`
exceeds `max_size()` and `reserve` throws `std::length_error`. -/
theorem create_positive_args_no_handle :
    webrtc_aec3_create exhaustedEnv emptyWorld 48000 2
      = .ok (0, { mem := emptyWorld.mem, log := [.error_create_alloc] }) ∧
    webrtc_aec3_create plentyEnv emptyWorld 46341 46341 = .error .length_error := by
  constructor
  · rfl
  · unfold webrtc_aec3_create WebRTCAEC3Processor.ctor FloatVector.reserve
    have h : ¬ ((46341 : Int) ≤ 0 ∨ (46341 : Int) ≤ 0) := by decide
    simp only [h, if_false]
    show (if true = true then _ else _) = _
    rw [toSizeT_negative]
    rfl

/-- C3 (amended): for `sample_rate > 0` and `num_channels > 0` whose product
is at most `2^31 − 1` and at most `max_size()`, when `operator new` and the
allocation of `reserve` both succeed, `webrtc_aec3_create` returns a non-null
handle to a processor holding the two arguments, with an empty buffer whose
capacity is the product; for `sample_rate ≤ 0` or `num_channels ≤ 0` it
returns the null pointer and leaves the memory as it was. -/
theorem create_nonnull_of_valid (env : Env) (w : World α) (sample_rate num_channels : Int) :
    (0 < sample_rate → 0 < num_channels →
      sample_rate * num_channels ≤ INT_MAX →
      (sample_rate * num_channels).toNat ≤ max_size env.abi →
      env.new_ok = true → env.alloc_ok (sample_rate * num_channels).toNat = true →
      ∃ handle w1, webrtc_aec3_create env w sample_rate num_channels = .ok (handle, w1) ∧
        handle ≠ 0 ∧
        w1.mem.proc handle = some ⟨sample_rate, num_channels,
          ⟨[], (sample_rate * num_channels).toNat⟩⟩) ∧
    (sample_rate ≤ 0 ∨ num_channels ≤ 0 →
      ∃ w1, webrtc_aec3_create env w sample_rate num_channels = .ok (0, w1) ∧
        w1.mem = w.mem) := by
  constructor
  · intro hr hc hint hmax hnew halloc
    exact ⟨_, _, create_valid env w sample_rate num_channels hr hc hint hmax hnew halloc,
      Nat.succ_ne_zero _, Memory.proc_append w.mem _⟩
  · intro h
    exact ⟨_, create_invalid env w sample_rate num_channels h, rfl⟩

/-- Witness for C3 (amended): `create(48000, 2)` with every allocation granted
returns a non-null handle, and `create(0, 1)` returns the null pointer. -/
theorem create_nonnull_of_valid_witness :
    (∃ handle w1, webrtc_aec3_create plentyEnv arraysWorld 48000 2 = .ok (handle, w1) ∧
        handle ≠ 0 ∧
        w1.mem.proc handle = some ⟨48000, 2, ⟨[], ((48000 : Int) * 2).toNat⟩⟩) ∧
    (∃ w1, webrtc_aec3_create plentyEnv arraysWorld 0 1 = .ok (0, w1) ∧
        w1.mem = arraysWorld.mem) :=
  ⟨(create_nonnull_of_valid plentyEnv arraysWorld 48000 2).1 (by decide) (by decide)
      (by decide) (by decide) rfl rfl,
   (create_nonnull_of_valid plentyEnv arraysWorld 0 1).2 (Or.inl (by decide))⟩

end Lemmas

end AEC3
